import Mathlib

/-!
Verification of the Feed Extraction & Digest Assembly pipeline of the
News-Whatsapp repository (`news_agent.py`, `meal_planner.py`).

The Python sources are shallowly embedded: Python dicts holding article
fields become the `Article` structure, Python string primitives
(`strip`, `lower`, `split`, `rsplit`, `rstrip`, slicing, `in`) are
modelled on `String`/`List Char`, timestamps become `Int` seconds since
the epoch, timezone conversion becomes an offset function, and external
library calls (BeautifulSoup text extraction, `json.loads`,
`requests.get`, `random.sample`, SMTP sending) are universally
quantified function parameters.
-/

/-! ## Python string primitives -/

/-- Whitespace characters recognised by Python's `str.strip`/`str.split`
(ASCII subset: space, tab, newline, carriage return, vertical tab, form feed). -/
def isPySpace (c : Char) : Bool :=
  c = ' ' || c = '\t' || c = '\n' || c = '\r' || c = Char.ofNat 11 || c = Char.ofNat 12

/-- Leading-whitespace removal on the character list. -/
def stripLeft (l : List Char) : List Char := l.dropWhile isPySpace

/-- Trailing-whitespace removal on the character list. -/
def stripRight (l : List Char) : List Char := (l.reverse.dropWhile isPySpace).reverse

/-- Python `s.strip()`: remove leading and trailing whitespace. -/
def pyStrip (s : String) : String := ⟨stripRight (stripLeft s.data)⟩

/-- Python `s.split()` (no separator): split on whitespace runs, dropping
empty pieces; auxiliary worker carrying the current word reversed. -/
def pySplitWsAux : List Char → List Char → List (List Char)
  | [], [] => []
  | [], cur => [cur.reverse]
  | c :: cs, cur =>
    if isPySpace c then
      if cur.isEmpty then pySplitWsAux cs [] else cur.reverse :: pySplitWsAux cs []
    else pySplitWsAux cs (c :: cur)

/-- Python `s.split()` (no separator). -/
def pySplitWs (s : String) : List String := (pySplitWsAux s.data []).map (⟨·⟩)

/-- Python `s.rsplit(' ', 1)[0]`: everything before the last space,
or the whole string when it contains no space. -/
def pyRsplitSpaceHead (s : String) : String :=
  if s.data.contains ' ' then
    ⟨(((s.data.reverse).dropWhile (fun c => c != ' ')).drop 1).reverse⟩
  else s

/-- Python `s.rstrip('/')`: remove trailing slashes. -/
def pyRstripSlash (s : String) : String :=
  ⟨(s.data.reverse.dropWhile (fun c => c == '/')).reverse⟩

/-- Worker for the substring test: try the needle at every suffix. -/
def pyInAux (needle : List Char) : List Char → Bool
  | [] => needle.isEmpty
  | h :: t => needle.isPrefixOf (h :: t) || pyInAux needle t

/-- Python `needle in hay` substring test. -/
def pyIn (needle hay : String) : Bool := pyInAux needle.data hay.data

/-- Python `s.startswith(pre)`. -/
def pyStartsWith (s pre : String) : Bool := pre.data.isPrefixOf s.data

/-- Python `s.lower()` (ASCII case folding, character-wise). -/
def pyLower (s : String) : String := ⟨s.data.map Char.toLower⟩

/-! ## Whitespace-stripping lemmas -/

theorem dropWhile_dropWhile (p : α → Bool) (l : List α) :
    (l.dropWhile p).dropWhile p = l.dropWhile p := by
  induction l with
  | nil => rfl
  | cons a t ih =>
    by_cases h : p a
    · simpa [List.dropWhile_cons, h] using ih
    · simp [List.dropWhile_cons, h]

theorem head?_dropWhile_false (p : α → Bool) (l : List α) (a : α)
    (h : (l.dropWhile p).head? = some a) : p a = false := by
  induction l with
  | nil => simp [List.dropWhile] at h
  | cons b t ih =>
    by_cases hb : p b
    · exact ih (by simpa [List.dropWhile_cons, hb] using h)
    · rw [List.dropWhile_cons, if_neg (by simp [hb])] at h
      simp only [List.head?_cons, Option.some.injEq] at h
      subst h
      simpa using hb

theorem dropWhile_eq_self_of_head? (p : α → Bool) (l : List α)
    (h : ∀ a, l.head? = some a → p a = false) : l.dropWhile p = l := by
  cases l with
  | nil => rfl
  | cons a t => rw [List.dropWhile_cons, if_neg (by simp [h a rfl])]

theorem stripRight_prefix_self (l : List Char) : stripRight l <+: l := by
  have h : l.reverse.dropWhile isPySpace <:+ l.reverse := List.dropWhile_suffix _
  have := List.reverse_prefix.mpr h
  simpa [stripRight] using this

theorem head?_of_prefix_ne_nil (l₁ l₂ : List α) (h : l₁ <+: l₂) (hne : l₁ ≠ []) :
    l₂.head? = l₁.head? := by
  obtain ⟨t, rfl⟩ := h
  cases l₁ with
  | nil => exact absurd rfl hne
  | cons a l => simp

theorem stripLeft_stripRight_stripLeft (l : List Char) :
    stripLeft (stripRight (stripLeft l)) = stripRight (stripLeft l) := by
  apply dropWhile_eq_self_of_head?
  intro a ha
  have hne : stripRight (stripLeft l) ≠ [] := by
    intro h; rw [h] at ha; simp at ha
  have hpre := stripRight_prefix_self (stripLeft l)
  have hhead : (stripLeft l).head? = some a := by
    rw [head?_of_prefix_ne_nil _ _ hpre hne]; exact ha
  exact head?_dropWhile_false isPySpace l a hhead

theorem stripRight_stripRight (l : List Char) :
    stripRight (stripRight l) = stripRight l := by
  unfold stripRight
  rw [List.reverse_reverse, dropWhile_dropWhile]

/-- Python `strip` is idempotent. -/
theorem pyStrip_idem (s : String) : pyStrip (pyStrip s) = pyStrip s := by
  show (⟨stripRight (stripLeft (stripRight (stripLeft s.data)))⟩ : String) =
    ⟨stripRight (stripLeft s.data)⟩
  rw [stripLeft_stripRight_stripLeft, stripRight_stripRight]

/-! ## Data model: one extracted article (a Python dict with the keys
`title`, `link`, `summary`, `published`, `source`). `published` is an
optional timezone-aware instant, modelled as seconds since the epoch. -/

structure Article where
  title : String
  link : String
  summary : String
  published : Option Int
  source : String
deriving DecidableEq, Repr

/-! ## `filter_today_articles` (news_agent.py lines 190-213)

A pytz timezone is modelled as an offset function (seconds east of UTC,
allowed to depend on the instant, which covers DST).  For an
aware instant `t`, `published.astimezone(local_tz).date()` is the floor
of the locally shifted epoch time divided by 86400 seconds. -/

/-- Calendar-date index of instant `t` in the timezone given by `offset`
(`astimezone(local_tz).date()` in the source). -/
def local_date (offset : Int → Int) (t : Int) : Int := (t + offset t).fdiv 86400

/-- The retention test the loop body of `filter_today_articles` applies to
one article: undated articles are appended unconditionally, dated ones
iff their local calendar date equals today's local calendar date. -/
def keeps_today (offset : Int → Int) (now : Int) (art : Article) : Bool :=
  match art.published with
  | none => true
  | some published => local_date offset published == local_date offset now

/-- `filter_today_articles`: the source loop conditionally appends each
article in order, i.e. a list filter by `keeps_today`. -/
def filter_today_articles (offset : Int → Int) (now : Int)
    (articles : List Article) : List Article :=
  articles.filter (keeps_today offset now)

/-- C3: an article is retained by `filter_today_articles` iff it occurs in
the input and either has no published timestamp (kept unconditionally) or
its timezone-aware local calendar date equals today's date in the same
timezone. -/
theorem filter_today_articles_mem (offset : Int → Int) (now : Int)
    (articles : List Article) (art : Article) :
    art ∈ filter_today_articles offset now articles ↔
      art ∈ articles ∧ (art.published = none ∨
        ∃ t, art.published = some t ∧
          local_date offset t = local_date offset now) := by
  rw [filter_today_articles, List.mem_filter]
  constructor
  · rintro ⟨hmem, hk⟩
    refine ⟨hmem, ?_⟩
    unfold keeps_today at hk
    cases hp : art.published with
    | none => exact Or.inl rfl
    | some t =>
      rw [hp] at hk
      exact Or.inr ⟨t, rfl, by simpa using hk⟩
  · rintro ⟨hmem, hcond⟩
    refine ⟨hmem, ?_⟩
    unfold keeps_today
    rcases hcond with hnone | ⟨t, ht, hd⟩
    · rw [hnone]
    · rw [ht]; simpa using hd

/-- C8: with the clock and timezone held fixed, filtering twice returns
exactly the once-filtered list. -/
theorem filter_today_articles_idem (offset : Int → Int) (now : Int)
    (articles : List Article) :
    filter_today_articles offset now (filter_today_articles offset now articles) =
      filter_today_articles offset now articles := by
  unfold filter_today_articles
  rw [List.filter_filter]
  simp

/-- C10: the output of `filter_today_articles` is a subsequence of its
input: retained articles are the unmodified input records in their
original relative order. -/
theorem filter_today_articles_sublist (offset : Int → Int) (now : Int)
    (articles : List Article) :
    (filter_today_articles offset now articles).Sublist articles :=
  List.filter_sublist articles

/-! ## `categorize_articles` (news_agent.py lines 345-379)

The source keeps a dict with the three preset keys `"Economia"`,
`"Politica"`, `"Outros"` and appends each article to exactly one of them. -/

structure Categories where
  economia : List Article
  politica : List Article
  outros : List Article
deriving DecidableEq, Repr

/-- Python `source.split("_")[-1].lower()`. -/
def topic_key_of (source : String) : String :=
  ((source.splitOn "_").getLastD "").toLower

/-- Loop body of `categorize_articles`: `if source and "_" in source`,
then the economia synonyms, then the politica synonyms, else `Outros`. -/
def categorize_step (categories : Categories) (art : Article) : Categories :=
  let source := art.source
  if source != "" && source.contains '_' then
    let topic_key := topic_key_of source
    if topic_key == "economia" || topic_key == "business" then
      { categories with economia := categories.economia ++ [art] }
    else if topic_key == "politica" || topic_key == "politics" || topic_key == "policy" then
      { categories with politica := categories.politica ++ [art] }
    else
      { categories with outros := categories.outros ++ [art] }
  else
    { categories with outros := categories.outros ++ [art] }

def categorize_articles (articles : List Article) : Categories :=
  articles.foldl categorize_step ⟨[], [], []⟩

/-- The economy-bucket test of C4: source tag contains an underscore and
the component after the last underscore is, case-insensitively, one of
economia/business. -/
def isEconArticle (art : Article) : Bool :=
  (art.source != "" && art.source.contains '_') &&
    (topic_key_of art.source == "economia" || topic_key_of art.source == "business")

/-- The politics-bucket test of C4: trailing component is one of
politica/politics/policy. -/
def isPolArticle (art : Article) : Bool :=
  (art.source != "" && art.source.contains '_') &&
    (topic_key_of art.source == "politica" || topic_key_of art.source == "politics" ||
      topic_key_of art.source == "policy")

/-- Everything else lands in the `"Outros"` bucket. -/
def isOutroArticle (art : Article) : Bool := !isEconArticle art && !isPolArticle art

theorem econ_pol_disjoint (art : Article) :
    ¬(isEconArticle art = true ∧ isPolArticle art = true) := by
  rintro ⟨he, hp⟩
  unfold isEconArticle at he
  unfold isPolArticle at hp
  rcases Bool.and_eq_true .. |>.mp he with ⟨-, he2⟩
  rcases Bool.and_eq_true .. |>.mp hp with ⟨-, hp2⟩
  simp only [Bool.or_eq_true, beq_iff_eq] at he2 hp2
  rcases he2 with h | h <;> rw [h] at hp2 <;> simp at hp2

theorem categorize_foldl (articles : List Article) : ∀ acc : Categories,
    articles.foldl categorize_step acc =
      ⟨acc.economia ++ articles.filter isEconArticle,
        acc.politica ++ articles.filter isPolArticle,
        acc.outros ++ articles.filter isOutroArticle⟩ := by
  induction articles with
  | nil => intro acc; simp
  | cons art rest ih =>
    intro acc
    rw [List.foldl_cons, ih]
    by_cases hc : (art.source != "" && art.source.contains '_') = true
    · by_cases he : (topic_key_of art.source == "economia" ||
          topic_key_of art.source == "business") = true
      · have heq : isEconArticle art = true := by
          unfold isEconArticle; rw [hc, he]; rfl
        have hpq : isPolArticle art = false := by
          by_contra hx
          exact econ_pol_disjoint art ⟨heq, by simpa using hx⟩
        have hoq : isOutroArticle art = false := by
          unfold isOutroArticle; rw [heq]; rfl
        simp [categorize_step, hc, he, List.filter_cons, heq, hpq, hoq]
      · by_cases hp : (topic_key_of art.source == "politica" ||
            topic_key_of art.source == "politics" ||
            topic_key_of art.source == "policy") = true
        · have heq : isEconArticle art = false := by
            unfold isEconArticle
            rw [Bool.eq_false_iff]
            intro hx
            exact he (Bool.and_eq_true .. |>.mp hx).2
          have hpq : isPolArticle art = true := by
            unfold isPolArticle; rw [hc, hp]; rfl
          have hoq : isOutroArticle art = false := by
            unfold isOutroArticle; rw [hpq]; simp
          simp [categorize_step, hc, he, hp, List.filter_cons, heq, hpq, hoq]
        · have heq : isEconArticle art = false := by
            unfold isEconArticle
            rw [Bool.eq_false_iff]
            intro hx
            exact he (Bool.and_eq_true .. |>.mp hx).2
          have hpq : isPolArticle art = false := by
            unfold isPolArticle
            rw [Bool.eq_false_iff]
            intro hx
            exact hp (Bool.and_eq_true .. |>.mp hx).2
          have hoq : isOutroArticle art = true := by
            unfold isOutroArticle; rw [heq, hpq]; rfl
          simp [categorize_step, hc, he, hp, List.filter_cons, heq, hpq, hoq]
    · have heq : isEconArticle art = false := by
        unfold isEconArticle
        rw [Bool.eq_false_iff]
        intro hx
        exact hc (Bool.and_eq_true .. |>.mp hx).1
      have hpq : isPolArticle art = false := by
        unfold isPolArticle
        rw [Bool.eq_false_iff]
        intro hx
        exact hc (Bool.and_eq_true .. |>.mp hx).1
      have hoq : isOutroArticle art = true := by
        unfold isOutroArticle; rw [heq, hpq]; rfl
      simp [categorize_step, hc, List.filter_cons, heq, hpq, hoq]

theorem filter_three_length (p q : Article → Bool)
    (hdisj : ∀ a, ¬(p a = true ∧ q a = true)) (l : List Article) :
    (l.filter p).length + (l.filter q).length +
      (l.filter (fun a => !p a && !q a)).length = l.length := by
  induction l with
  | nil => rfl
  | cons a t ih =>
    by_cases hp : p a = true
    · have hq : q a = false := by
        by_contra hx
        exact hdisj a ⟨hp, by simpa using hx⟩
      simp [List.filter_cons, hp, hq]
      omega
    · by_cases hq : q a = true
      · simp [List.filter_cons, hp, hq]
        omega
      · simp [List.filter_cons, hp, hq, Bool.eq_false_iff.mpr hp, Bool.eq_false_iff.mpr hq]
        omega

/-- C4: `categorize_articles` is total and assigns every article to
exactly one bucket.  Each bucket is precisely the sublist of input
articles satisfying its test (underscore present and the component after
the last underscore case-insensitively in {economia, business} for the
economy bucket, in {politica, politics, policy} for the politics bucket,
everything else — including sources with no separator such as `"Valor"`
— in `"Outros"`), and the three bucket sizes sum to the input size, so
no article is dropped or duplicated. -/
theorem categorize_articles_spec (articles : List Article) :
    (categorize_articles articles).economia = articles.filter isEconArticle
    ∧ (categorize_articles articles).politica = articles.filter isPolArticle
    ∧ (categorize_articles articles).outros = articles.filter isOutroArticle
    ∧ (categorize_articles articles).economia.length +
        (categorize_articles articles).politica.length +
        (categorize_articles articles).outros.length = articles.length := by
  have h := categorize_foldl articles ⟨[], [], []⟩
  unfold categorize_articles
  rw [h]
  refine ⟨by simp, by simp, by simp, ?_⟩
  simp only [List.nil_append]
  exact filter_three_length isEconArticle isPolArticle econ_pol_disjoint articles

/-! ## Digest composition: `prepare_news_message` (news_agent.py lines
270-342) and `build_headline_message` (news_agent.py lines 382-421).

`BeautifulSoup(html).get_text()` is an external library call, modelled by
a universally quantified `getText` parameter applied exactly where the
source applies it.  The formatted current date
(`datetime.now(local_tz).strftime("%d/%m/%Y")`) is the `today_str`
parameter. -/

/-- Python `"\n\n".join(lines)`. -/
def joinNN : List String → String
  | [] => ""
  | [line] => line
  | line :: rest => line ++ "\n\n" ++ joinNN rest

/-- Total of `len(line) + 2` over a list of lines: the amount each line
adds to the running `current_length` in the source. -/
def linesExtra : List String → Nat
  | [] => 0
  | line :: rest => (line.length + 2) + linesExtra rest

theorem joinNN_length_cons (rest : List String) (line : String) :
    (joinNN (line :: rest)).length = line.length + linesExtra rest := by
  induction rest generalizing line with
  | nil => simp [joinNN, linesExtra]
  | cons l2 t ih =>
    show (line ++ "\n\n" ++ joinNN (l2 :: t)).length = _
    rw [String.length_append, String.length_append, ih l2]
    show line.length + 2 + (l2.length + linesExtra t) =
      line.length + ((l2.length + 2) + linesExtra t)
    omega

/-- Summary truncation block of `prepare_news_message` (lines 309-323),
applied to a non-empty `summary_text`: collapse whitespace, cut at the
first `'.'`, keep it if at most 150 characters, else hard-cut at 150 and
back off to the last whole word, appending an ellipsis. -/
def truncate_summary (summary_text : String) : String :=
  let truncated := String.intercalate " " (pySplitWs summary_text)
  let sentences := truncated.splitOn "."
  match sentences with
  | first :: _ =>
    let first_sentence := pyStrip first
    if first_sentence.length ≤ 150 then first_sentence
    else pyRsplitSpaceHead (first_sentence.take 150) ++ "…"
  | [] =>
    if truncated.length > 150 then pyRsplitSpaceHead (truncated.take 150) ++ "…"
    else truncated

/-- One formatted article line of `prepare_news_message` (lines 304-333):
index, title, optional truncated summary, optional source, optional link
on its own line. -/
def build_news_line (getText : String → String) (idx : Nat) (art : Article) : String :=
  let title := pyStrip art.title
  let summary_text := pyStrip (getText art.summary)
  let truncated := if summary_text = "" then "" else truncate_summary summary_text
  let line := toString idx ++ ". " ++ title
  let line := if truncated != "" then line ++ " – " ++ truncated else line
  let line := if art.source != "" then line ++ " (Fonte: " ++ art.source ++ ")" else line
  let line := if art.link != "" then line ++ "\nLink: " ++ art.link else line
  line

/-- The article loop of `prepare_news_message` (lines 301-341): breaks
when `count >= max_articles`, and breaks before appending a line whose
tentative total `current_length + len(line) + 2` would exceed
`max_chars`; otherwise appends the line whole. -/
def prepare_news_loop (getText : String → String) (max_articles max_chars : Nat) :
    List Article → Nat → Nat → Nat → List String
  | [], _, _, _ => []
  | art :: rest, idx, count, current_length =>
    if count ≥ max_articles then []
    else
      let line := build_news_line getText idx art
      let tentative_length := current_length + line.length + 2
      if tentative_length > max_chars then []
      else line :: prepare_news_loop getText max_articles max_chars rest
        (idx + 1) (count + 1) tentative_length

/-- The header line of `prepare_news_message` (line 296). -/
def news_header (today_str : String) : String :=
  "Principais notícias de " ++ today_str ++ " (Economia & Política):"

/-- `prepare_news_message`: header plus budget-limited article lines,
joined by blank lines; `current_length` starts at `len(header) + 2`. -/
def prepare_news_message (getText : String → String) (today_str : String)
    (max_articles max_chars : Nat) (articles : List Article) : String :=
  joinNN (news_header today_str ::
    prepare_news_loop getText max_articles max_chars articles 1 0
      ((news_header today_str).length + 2))

/-- Formatted lines for a batch of consecutive articles starting at a
given 1-based index — the shape every emitted article line has. -/
def build_news_lines (getText : String → String) : List Article → Nat → List String
  | [], _ => []
  | art :: rest, idx =>
    build_news_line getText idx art :: build_news_lines getText rest (idx + 1)

theorem prepare_news_loop_bound (getText : String → String)
    (max_articles max_chars : Nat) (articles : List Article) :
    ∀ idx count current_length,
      linesExtra (prepare_news_loop getText max_articles max_chars articles
        idx count current_length) = 0 ∨
      current_length + linesExtra (prepare_news_loop getText max_articles max_chars
        articles idx count current_length) ≤ max_chars := by
  induction articles with
  | nil => intro idx count cur; left; rfl
  | cons art rest ih =>
    intro idx count cur
    unfold prepare_news_loop
    by_cases hc : count ≥ max_articles
    · left; simp [hc, linesExtra]
    · rw [if_neg hc]
      by_cases ht : cur + (build_news_line getText idx art).length + 2 > max_chars
      · left; simp only [ht, if_true]; rfl
      · rw [if_neg ht]
        simp only [linesExtra]
        rcases ih (idx + 1) (count + 1) (cur + (build_news_line getText idx art).length + 2)
          with h0 | hle
        · right; rw [h0]; omega
        · right; omega

theorem prepare_news_loop_whole_lines (getText : String → String)
    (max_articles max_chars : Nat) (articles : List Article) :
    ∀ idx count current_length, ∃ k,
      prepare_news_loop getText max_articles max_chars articles idx count current_length =
        build_news_lines getText (articles.take k) idx := by
  induction articles with
  | nil => intro idx count cur; exact ⟨0, rfl⟩
  | cons art rest ih =>
    intro idx count cur
    unfold prepare_news_loop
    by_cases hc : count ≥ max_articles
    · exact ⟨0, by simp [hc, build_news_lines]⟩
    · rw [if_neg hc]
      by_cases ht : cur + (build_news_line getText idx art).length + 2 > max_chars
      · exact ⟨0, by simp [ht, build_news_lines]⟩
      · rw [if_neg ht]
        obtain ⟨k, hk⟩ := ih (idx + 1) (count + 1)
          (cur + (build_news_line getText idx art).length + 2)
        exact ⟨k + 1, by rw [hk]; rfl⟩

/-- C1 counterexample: the header is emitted without any check against
`max_chars`, so with `max_chars = 0` (and no articles at all) the
composed message is already longer than the budget — the claim fails as
stated for arbitrary `max_chars`. -/
theorem prepare_news_message_exceeds_budget :
    0 < (prepare_news_message (fun s => s) "01/01/2025" 10 0 []).length := by decide

/-- C1 (amended): whenever the character budget covers at least the
header (`len(header) ≤ max_chars`), the composed message has length at
most `max_chars`; moreover the emitted article lines are always the
whole formatted lines of a prefix of the input — an article line whose
tentative total (running length + candidate line + separator overhead)
would exceed `max_chars` is dropped whole and composition stops, never
truncating a line mid-line. -/
theorem prepare_news_message_spec (getText : String → String) (today_str : String)
    (max_articles max_chars : Nat) (articles : List Article)
    (hheader : (news_header today_str).length ≤ max_chars) :
    (prepare_news_message getText today_str max_articles max_chars articles).length
        ≤ max_chars
    ∧ ∃ k, prepare_news_message getText today_str max_articles max_chars articles =
        joinNN (news_header today_str ::
          build_news_lines getText (articles.take k) 1) := by
  constructor
  · unfold prepare_news_message
    rw [joinNN_length_cons]
    rcases prepare_news_loop_bound getText max_articles max_chars articles 1 0
      ((news_header today_str).length + 2) with h0 | hle
    · rw [h0]; omega
    · omega
  · obtain ⟨k, hk⟩ := prepare_news_loop_whole_lines getText max_articles max_chars
      articles 1 0 ((news_header today_str).length + 2)
    exact ⟨k, by unfold prepare_news_message; rw [hk]⟩

/-- Witness for C1 (amended) at a concrete input: header length 56 fits a
budget of 100 with an empty article list. -/
theorem prepare_news_message_spec_witness :
    (prepare_news_message (fun s => s) "01/01/2025" 10 100 []).length ≤ 100 :=
  (prepare_news_message_spec (fun s => s) "01/01/2025" 10 100 [] (by decide)).1

/-! ## `build_headline_message` (news_agent.py lines 382-421) -/

/-- One headline line (lines 410-420): index, stripped title, optional
source, optional link on its own line — no summary. -/
def build_headline_line (idx : Nat) (art : Article) : String :=
  let title := pyStrip art.title
  let line := toString idx ++ ". " ++ title
  let line := if art.source != "" then line ++ " (Fonte: " ++ art.source ++ ")" else line
  let line := if art.link != "" then line ++ "\nLink: " ++ art.link else line
  line

/-- Headline lines for consecutive articles, 1-based enumeration. -/
def build_headline_lines : List Article → Nat → List String
  | [], _ => []
  | art :: rest, idx => build_headline_line idx art :: build_headline_lines rest (idx + 1)

/-- The header of `build_headline_message` (line 407). -/
def headline_header (category today_str : String) : String :=
  "Principais manchetes de " ++ category ++ " em " ++ today_str ++ ":"

/-- `build_headline_message`: header plus one line per article of
`articles[:max_articles]`, joined by blank lines.  The source takes no
character-budget argument and performs no length check. -/
def build_headline_message (category today_str : String) (max_articles : Nat)
    (articles : List Article) : String :=
  joinNN (headline_header category today_str ::
    build_headline_lines (articles.take max_articles) 1)

theorem build_headline_lines_length (articles : List Article) :
    ∀ idx, (build_headline_lines articles idx).length = articles.length := by
  induction articles with
  | nil => intro idx; rfl
  | cons a t ih =>
    intro idx
    show (build_headline_lines t (idx + 1)).length + 1 = t.length + 1
    rw [ih]

set_option maxRecDepth 40000 in
/-- C6 counterexample: `build_headline_message` applies no length-budget
rule at all — a single article already drives the output past a budget of
1500 characters (the detailed composer's default), because the function
takes no budget and never stops or drops a line. -/
theorem build_headline_message_exceeds_budget :
    1500 < (build_headline_message "Economia" "01/01/2025" 5
      [{ title := String.join (List.replicate 180 "economia "),
         link := "http://example.com", summary := "", published := none,
         source := "Globo_Economia" }]).length := by decide

/-- C6 (amended): `build_headline_message` obeys no character budget: it
emits the header plus one whole headline line for each of the first
`min max_articles (number of articles)` articles unconditionally, its
length being the header length plus the full length (with blank-line
separators) of every such line.  Nothing is ever dropped or truncated
for length, so the output is not bounded by any budget. -/
theorem build_headline_message_spec (category today_str : String)
    (max_articles : Nat) (articles : List Article) :
    (build_headline_message category today_str max_articles articles).length =
      (headline_header category today_str).length +
        linesExtra (build_headline_lines (articles.take max_articles) 1)
    ∧ (build_headline_lines (articles.take max_articles) 1).length =
        min max_articles articles.length := by
  constructor
  · unfold build_headline_message
    rw [joinNN_length_cons]
  · rw [build_headline_lines_length, List.length_take]

/-! ## `scrape_valor_headlines` (news_agent.py lines 135-187)

One parsed DOM element from `soup.find_all(['h2', 'h3', 'a'])`: its
`get_text(strip=True)` result and its `href` attribute (absent → none). -/

structure ValorTag where
  text : String
  href : Option String
deriving DecidableEq, Repr

/-- The scraping loop (lines 160-186): skip tags with empty text or
missing/empty href, skip visible texts under 3 words, skip already-seen
titles, record the title as seen (the Python `seen_titles.add(text)`,
inlined here as `tag.text :: seen` at each recursive call made after the
add), resolve the link (relative hrefs are prefixed with
`base_url.rstrip('/')`, absolute `http` hrefs pass through, anything
else is skipped), append the headline, and break once
`len(headlines) >= max_articles`. -/
def scrape_valor_go (base_url : String) (max_articles : Nat) :
    List ValorTag → List String → Nat → List Article
  | [], _, _ => []
  | tag :: rest, seen, collected =>
    match tag.href with
    | none => scrape_valor_go base_url max_articles rest seen collected
    | some href =>
      if tag.text = "" || href = "" then
        scrape_valor_go base_url max_articles rest seen collected
      else if (pySplitWs tag.text).length < 3 then
        scrape_valor_go base_url max_articles rest seen collected
      else if seen.contains tag.text then
        scrape_valor_go base_url max_articles rest seen collected
      else if pyStartsWith href "/" then
        if collected + 1 ≥ max_articles then
          [⟨tag.text, pyRstripSlash base_url ++ href, "", none, "Valor"⟩]
        else
          ⟨tag.text, pyRstripSlash base_url ++ href, "", none, "Valor"⟩ ::
            scrape_valor_go base_url max_articles rest (tag.text :: seen) (collected + 1)
      else if pyStartsWith href "http" then
        if collected + 1 ≥ max_articles then
          [⟨tag.text, href, "", none, "Valor"⟩]
        else
          ⟨tag.text, href, "", none, "Valor"⟩ ::
            scrape_valor_go base_url max_articles rest (tag.text :: seen) (collected + 1)
      else scrape_valor_go base_url max_articles rest (tag.text :: seen) collected

/-- `scrape_valor_headlines`, starting from an empty `seen_titles` set
and an empty headline list. -/
def scrape_valor_headlines (base_url : String) (max_articles : Nat)
    (tags : List ValorTag) : List Article :=
  scrape_valor_go base_url max_articles tags [] 0

theorem scrape_valor_go_length (base_url : String) (max_articles : Nat)
    (tags : List ValorTag) : ∀ seen collected, collected < max_articles →
    (scrape_valor_go base_url max_articles tags seen collected).length ≤
      max_articles - collected := by
  induction tags with
  | nil => intro seen c _; simp [scrape_valor_go]
  | cons tag rest ih =>
    intro seen c hc
    rcases htag : tag.href with _ | href
    · simp only [scrape_valor_go, htag]
      exact ih seen c hc
    · simp only [scrape_valor_go, htag]
      split
      · exact ih seen c hc
      split
      · exact ih seen c hc
      split
      · exact ih seen c hc
      split
      · split
        · simp only [List.length_singleton]; omega
        · have hrec := ih (tag.text :: seen) (c + 1) (by omega)
          simp only [List.length_cons]; omega
      · split
        · split
          · simp only [List.length_singleton]; omega
          · have hrec := ih (tag.text :: seen) (c + 1) (by omega)
            simp only [List.length_cons]; omega
        · exact ih (tag.text :: seen) c hc

theorem scrape_valor_go_titles (base_url : String) (max_articles : Nat)
    (tags : List ValorTag) : ∀ seen collected,
    ((scrape_valor_go base_url max_articles tags seen collected).map
      Article.title).Pairwise (· ≠ ·) ∧
    ∀ art ∈ scrape_valor_go base_url max_articles tags seen collected,
      art.title ∉ seen := by
  induction tags with
  | nil => intro seen c; simp [scrape_valor_go]
  | cons tag rest ih =>
    intro seen c
    rcases htag : tag.href with _ | href
    · simp only [scrape_valor_go, htag]
      exact ih seen c
    · simp only [scrape_valor_go, htag]
      split
      · exact ih seen c
      split
      · exact ih seen c
      split
      · exact ih seen c
      rename_i hcontains
      have hseen : tag.text ∉ seen := by simpa using hcontains
      split
      · split
        · refine ⟨by simp, ?_⟩
          intro art hart
          rw [List.mem_singleton] at hart
          subst hart
          exact hseen
        · obtain ⟨hpw, hns⟩ := ih (tag.text :: seen) (c + 1)
          constructor
          · rw [List.map_cons, List.pairwise_cons]
            refine ⟨?_, hpw⟩
            intro t ht
            obtain ⟨art, hart, rfl⟩ := List.mem_map.mp ht
            have h2 := hns art hart
            rw [List.mem_cons] at h2
            push_neg at h2
            show tag.text ≠ art.title
            exact fun he => h2.1 he.symm
          · intro art hart
            rcases List.mem_cons.mp hart with rfl | hmem
            · exact hseen
            · have h2 := hns art hmem
              rw [List.mem_cons] at h2
              push_neg at h2
              exact h2.2
      · split
        · split
          · refine ⟨by simp, ?_⟩
            intro art hart
            rw [List.mem_singleton] at hart
            subst hart
            exact hseen
          · obtain ⟨hpw, hns⟩ := ih (tag.text :: seen) (c + 1)
            constructor
            · rw [List.map_cons, List.pairwise_cons]
              refine ⟨?_, hpw⟩
              intro t ht
              obtain ⟨art, hart, rfl⟩ := List.mem_map.mp ht
              have h2 := hns art hart
              rw [List.mem_cons] at h2
              push_neg at h2
              show tag.text ≠ art.title
              exact fun he => h2.1 he.symm
            · intro art hart
              rcases List.mem_cons.mp hart with rfl | hmem
              · exact hseen
              · have h2 := hns art hmem
                rw [List.mem_cons] at h2
                push_neg at h2
                exact h2.2
        · obtain ⟨hpw, hns⟩ := ih (tag.text :: seen) c
          refine ⟨hpw, fun art hart => ?_⟩
          have h2 := hns art hart
          rw [List.mem_cons] at h2
          push_neg at h2
          exact h2.2

theorem scrape_valor_go_elems (base_url : String) (max_articles : Nat)
    (tags : List ValorTag) : ∀ seen collected,
    ∀ art ∈ scrape_valor_go base_url max_articles tags seen collected,
      3 ≤ (pySplitWs art.title).length ∧
      (pyStartsWith art.link "http" = true ∨
        ∃ hr, pyStartsWith hr "/" = true ∧ art.link = pyRstripSlash base_url ++ hr) := by
  induction tags with
  | nil => intro seen c; simp [scrape_valor_go]
  | cons tag rest ih =>
    intro seen c
    rcases htag : tag.href with _ | href
    · simp only [scrape_valor_go, htag]
      exact ih seen c
    · simp only [scrape_valor_go, htag]
      split
      · exact ih seen c
      split
      · exact ih seen c
      split
      · exact ih seen c
      rename_i hwords _
      split
      · rename_i hrel
        split
        · intro art hart
          rw [List.mem_singleton] at hart
          subst hart
          exact ⟨by show 3 ≤ (pySplitWs tag.text).length; omega, Or.inr ⟨href, hrel, rfl⟩⟩
        · intro art hart
          rcases List.mem_cons.mp hart with rfl | hmem
          · exact ⟨by show 3 ≤ (pySplitWs tag.text).length; omega, Or.inr ⟨href, hrel, rfl⟩⟩
          · exact ih (tag.text :: seen) (c + 1) art hmem
      · split
        · rename_i habs
          split
          · intro art hart
            rw [List.mem_singleton] at hart
            subst hart
            exact ⟨by show 3 ≤ (pySplitWs tag.text).length; omega, Or.inl habs⟩
          · intro art hart
            rcases List.mem_cons.mp hart with rfl | hmem
            · exact ⟨by show 3 ≤ (pySplitWs tag.text).length; omega, Or.inl habs⟩
            · exact ih (tag.text :: seen) (c + 1) art hmem
        · exact ih (tag.text :: seen) c

/-- C9 counterexample: the `len(headlines) >= max_articles` stop check
runs only after a headline has been appended, so with `max_articles = 0`
one valid tag still produces one headline — strictly more than
`max_articles`, refuting "the result has at most max_articles entries"
for arbitrary `max_articles`. -/
theorem scrape_valor_headlines_zero_budget :
    (scrape_valor_headlines "http://b" 0 [⟨"um dois tres", some "/x"⟩]).length = 1 := by
  decide

/-- C9 (amended): for `max_articles ≥ 1`, every headline returned by
`scrape_valor_headlines` has a visible title of at least 3 words, the
returned titles are pairwise distinct, every returned link is either an
absolute `http` href passed through or a relative href (starting with
`"/"`) prefixed with `base_url.rstrip('/')`, and the result has at most
`max_articles` entries.  (With `max_articles = 0` the stop check, which
runs only after appending, still lets one headline through.) -/
theorem scrape_valor_headlines_spec (base_url : String) (max_articles : Nat)
    (tags : List ValorTag) (hpos : 1 ≤ max_articles) :
    (scrape_valor_headlines base_url max_articles tags).length ≤ max_articles
    ∧ ((scrape_valor_headlines base_url max_articles tags).map
        Article.title).Pairwise (· ≠ ·)
    ∧ ∀ art ∈ scrape_valor_headlines base_url max_articles tags,
        3 ≤ (pySplitWs art.title).length ∧
        (pyStartsWith art.link "http" = true ∨
          ∃ hr, pyStartsWith hr "/" = true ∧ art.link = pyRstripSlash base_url ++ hr) := by
  refine ⟨?_, ?_, ?_⟩
  · have := scrape_valor_go_length base_url max_articles tags [] 0 (by omega)
    unfold scrape_valor_headlines
    omega
  · exact (scrape_valor_go_titles base_url max_articles tags [] 0).1
  · exact scrape_valor_go_elems base_url max_articles tags [] 0

/-- Witness for C9 (amended) at a concrete input: one valid tag with a
relative href under a budget of one article. -/
theorem scrape_valor_headlines_spec_witness :
    (scrape_valor_headlines "http://b/" 1 [⟨"um dois tres", some "/x"⟩]).length ≤ 1 :=
  (scrape_valor_headlines_spec "http://b/" 1 [⟨"um dois tres", some "/x"⟩] (by decide)).1

/-! ## Ingredient deduplication in `build_menu` (meal_planner.py lines
177-183)

The Python dict `normalized` preserves insertion order; `key not in
normalized` keeps only the first occurrence of each normalized key, and
`sorted(normalized.values(), key=lambda s: s.lower())` is a stable sort
by the case-folded value.  Python's `sorted` is specified to be stable,
and any two stable sorts under the same key ordering produce the same
list, so `sorted` is modelled by a stable insertion sort. -/

/-- The dedup key `item.strip().lower()`. -/
def dedupe_key (s : String) : String := pyLower (pyStrip s)

/-- The dedup loop: an insertion-ordered association list from
normalized key to the first occurrence's stripped text. -/
def dedupe_go (acc : List (String × String)) : List String → List (String × String)
  | [] => acc
  | item :: rest =>
    if acc.any (fun p => p.1 == dedupe_key item) then dedupe_go acc rest
    else dedupe_go (acc ++ [(dedupe_key item, pyStrip item)]) rest

/-- Lexicographic comparison of character lists by code point — Python's
string `<=` used on the `s.lower()` sort keys. -/
def charListLe : List Char → List Char → Bool
  | [], _ => true
  | _ :: _, [] => false
  | a :: as, b :: bs => if a < b then true else if b < a then false else charListLe as bs

/-- `key=lambda s: s.lower()` comparison. -/
def pyLowerLe (a b : String) : Bool := charListLe (pyLower a).data (pyLower b).data

/-- Stable insertion (a later element goes after every earlier element
whose key is less than or equal to its own). -/
def insort (x : String) : List String → List String
  | [] => [x]
  | b :: bs => if pyLowerLe b x then b :: insort x bs else x :: b :: bs

/-- Stable insertion sort, processing elements left to right — the model
of Python's stable `sorted(..., key=lambda s: s.lower())`. -/
def pySortByLower (l : List String) : List String :=
  l.foldl (fun acc x => insort x acc) []

/-- The deduplicated, alphabetically sorted shopping list built at the
end of `build_menu`. -/
def dedupe_ingredients (items : List String) : List String :=
  pySortByLower ((dedupe_go [] items).map Prod.snd)

theorem insort_perm (x : String) (l : List String) : (insort x l).Perm (x :: l) := by
  induction l with
  | nil => exact List.Perm.refl _
  | cons b bs ih =>
    unfold insort
    split
    · exact ((ih.cons b).trans (List.Perm.swap x b bs)).symm.symm
    · exact List.Perm.refl _

theorem pySortByLower_foldl_perm (l : List String) :
    ∀ acc : List String, (l.foldl (fun acc x => insort x acc) acc).Perm (acc ++ l) := by
  induction l with
  | nil => intro acc; simp
  | cons x xs ih =>
    intro acc
    rw [List.foldl_cons]
    refine (ih (insort x acc)).trans ?_
    refine (List.Perm.append_right xs (insort_perm x acc)).trans ?_
    exact (List.perm_middle).symm

theorem pySortByLower_perm (l : List String) : (pySortByLower l).Perm l := by
  simpa using pySortByLower_foldl_perm l []

theorem dedupe_go_mono (items : List String) :
    ∀ acc p, p ∈ acc → p ∈ dedupe_go acc items := by
  induction items with
  | nil => intro acc p hp; exact hp
  | cons item rest ih =>
    intro acc p hp
    unfold dedupe_go
    split
    · exact ih acc p hp
    · exact ih _ p (List.mem_append_left _ hp)

theorem dedupe_go_keys_distinct (items : List String) :
    ∀ acc, acc.Pairwise (fun p q => p.1 ≠ q.1) →
      (dedupe_go acc items).Pairwise (fun p q => p.1 ≠ q.1) := by
  induction items with
  | nil => intro acc h; exact h
  | cons item rest ih =>
    intro acc hacc
    unfold dedupe_go
    split
    · exact ih acc hacc
    · rename_i hany
      refine ih _ ?_
      rw [List.pairwise_append]
      refine ⟨hacc, by simp, ?_⟩
      intro p hp q hq
      rw [List.mem_singleton] at hq
      subst hq
      have := (List.any_eq_false .. |>.mp (Bool.not_eq_true _ |>.mp hany)) p hp
      simpa using this

theorem dedupe_go_key_of_val (items : List String) :
    ∀ acc, (∀ p ∈ acc, p.1 = dedupe_key p.2) →
      ∀ p ∈ dedupe_go acc items, p.1 = dedupe_key p.2 := by
  induction items with
  | nil => intro acc h; exact h
  | cons item rest ih =>
    intro acc hacc
    unfold dedupe_go
    split
    · exact ih acc hacc
    · refine ih _ ?_
      intro p hp
      rcases List.mem_append.mp hp with hin | hnew
      · exact hacc p hin
      · rw [List.mem_singleton] at hnew
        subst hnew
        show dedupe_key item = dedupe_key (pyStrip item)
        unfold dedupe_key
        rw [pyStrip_idem]

theorem dedupe_go_first (items : List String) :
    ∀ acc (key : String), (∀ p ∈ acc, p.1 ≠ key) →
      (∃ t ∈ items, dedupe_key t = key) →
      ∃ first, items.find? (fun t => dedupe_key t == key) = some first ∧
        dedupe_key first = key ∧ (key, pyStrip first) ∈ dedupe_go acc items := by
  induction items with
  | nil =>
    intro acc key _ hex
    obtain ⟨t, ht, -⟩ := hex
    exact absurd ht (List.not_mem_nil t)
  | cons item rest ih =>
    intro acc key hacc hex
    by_cases hk : dedupe_key item = key
    · refine ⟨item, ?_, hk, ?_⟩
      · rw [List.find?_cons_of_pos _ (by simpa using hk)]
      · unfold dedupe_go
        split
        · rename_i hany
          exfalso
          obtain ⟨p, hp, hpk⟩ := List.any_eq_true .. |>.mp hany
          exact hacc p hp (by rw [beq_iff_eq] at hpk; rw [hpk, hk])
        · refine dedupe_go_mono rest _ _ ?_
          rw [hk]
          exact List.mem_append_right _ (List.mem_singleton.mpr rfl)
    · have hex' : ∃ t ∈ rest, dedupe_key t = key := by
        obtain ⟨t, ht, htk⟩ := hex
        rcases List.mem_cons.mp ht with rfl | hmem
        · exact absurd htk hk
        · exact ⟨t, hmem, htk⟩
      have hfind : (item :: rest).find? (fun t => dedupe_key t == key) =
          rest.find? (fun t => dedupe_key t == key) :=
        List.find?_cons_of_neg _ (by simpa using hk)
      unfold dedupe_go
      split
      · obtain ⟨first, h1, h2, h3⟩ := ih acc key hacc hex'
        exact ⟨first, by rw [hfind]; exact h1, h2, h3⟩
      · have hacc' : ∀ p ∈ acc ++ [(dedupe_key item, pyStrip item)], p.1 ≠ key := by
          intro p hp
          rcases List.mem_append.mp hp with hin | hnew
          · exact hacc p hin
          · rw [List.mem_singleton] at hnew
            subst hnew
            exact hk
        obtain ⟨first, h1, h2, h3⟩ := ih _ key hacc' hex'
        exact ⟨first, by rw [hfind]; exact h1, h2, h3⟩

/-- C2: the deduplicated shopping list built in `build_menu` contains no
two entries whose normalized keys (trimmed, lower-cased text) are equal;
for each key the retained display value is the first occurrence's text,
trimmed but with its original casing; and on five distinct strings of
which two differ only in trailing whitespace the result has four items. -/
theorem dedupe_ingredients_spec (items : List String) :
    (dedupe_ingredients items).Pairwise (fun a b => dedupe_key a ≠ dedupe_key b)
    ∧ (∀ item ∈ items, ∃ first,
        items.find? (fun t => dedupe_key t == dedupe_key item) = some first ∧
        pyStrip first ∈ dedupe_ingredients items)
    ∧ (dedupe_ingredients
        ["ovo", "Tomate assado", "cebola", "Tomate assado ", "alho"]).length = 4 := by
  refine ⟨?_, ?_, by decide⟩
  · have hkeys := dedupe_go_keys_distinct items [] (by simp)
    have hkv := dedupe_go_key_of_val items [] (by simp)
    have hbase : ((dedupe_go [] items).map Prod.snd).Pairwise
        (fun a b => dedupe_key a ≠ dedupe_key b) := by
      rw [List.pairwise_map]
      refine hkeys.imp_of_mem ?_
      intro p q hp hq hne
      rw [← hkv p hp, ← hkv q hq]
      exact hne
    show (pySortByLower ((dedupe_go [] items).map Prod.snd)).Pairwise _
    exact ((pySortByLower_perm _).pairwise_iff (fun h => h.symm)).mpr hbase
  · intro item hitem
    obtain ⟨first, h1, -, h3⟩ := dedupe_go_first items [] (dedupe_key item)
      (by simp) ⟨item, hitem, rfl⟩
    refine ⟨first, h1, ?_⟩
    have hmem : pyStrip first ∈ (dedupe_go [] items).map Prod.snd :=
      List.mem_map.mpr ⟨(dedupe_key item, pyStrip first), h3, rfl⟩
    exact (pySortByLower_perm _).mem_iff.mpr hmem

/-! ## `parse_recipe` (meal_planner.py lines 105-148)

A fetched recipe page is modelled by what the parser reads from the
DOM: the `<title>` text, the `js_recipe_schema` script tag (outer
`none` = tag absent, inner `none` = tag present but `.string` is None),
the `h2`-`h5` headings each with the text of their first following
`<ul>` (as raw `<li>` texts), and every `<li>` text of the document.
`json.loads` is an external call, modelled by a `parseJson` parameter
returning `none` exactly when the embedded JSON is malformed
(`json.JSONDecodeError`). -/

structure RecipeSchema where
  name : Option String
  recipeIngredient : Option (List String)

structure HeadingBlock where
  text : String
  nextUl : Option (List String)

structure RecipePage where
  title : Option String
  schemaScript : Option (Option String)
  headings : List HeadingBlock
  allLis : List String

/-- The structured-data path (lines 121-131): the `js_recipe_schema`
script must exist with a truthy `.string`; `data.get("recipeIngredient",
[])` defaults to the empty list, and malformed JSON is caught locally
and also yields the empty list. -/
def structured_ingredients (parseJson : String → Option RecipeSchema)
    (page : RecipePage) : List String :=
  match page.schemaScript with
  | some (some s) =>
    if s != "" then
      match parseJson s with
      | some data => data.recipeIngredient.getD []
      | none => []
    else []
  | _ => []

/-- The recipe name: `data.get("name", recipe_name)` over the page-title
fallback (`title_tag.get_text(strip=True)` if the tag exists, else the
URL); malformed or absent JSON leaves the fallback name. -/
def recipe_name_of (parseJson : String → Option RecipeSchema) (url : String)
    (page : RecipePage) : String :=
  let recipe_name :=
    match page.title with
    | some t => pyStrip t
    | none => url
  match page.schemaScript with
  | some (some s) =>
    if s != "" then
      match parseJson s with
      | some data => data.name.getD recipe_name
      | none => recipe_name
    else recipe_name
  | _ => recipe_name

/-- The heading-anchored path (lines 133-141): for each heading whose
text contains "Ingrediente", collect the non-empty stripped `<li>` texts
of its first following `<ul>`. -/
def heading_ingredients (page : RecipePage) : List String :=
  page.headings.foldl (fun ingredients h =>
    if pyIn "Ingrediente" h.text then
      match h.nextUl with
      | some ul =>
        ul.foldl (fun acc li =>
          if pyStrip li != "" then acc ++ [pyStrip li] else acc) ingredients
      | none => ingredients
    else ingredients) []

/-- The last-resort path (lines 142-147): every non-empty stripped
`<li>` text in the document. -/
def last_resort_ingredients (page : RecipePage) : List String :=
  page.allLis.foldl (fun acc li =>
    if pyStrip li != "" then acc ++ [pyStrip li] else acc) []

/-- `parse_recipe` on a fetched page: the structured-data block (when
present, truthy and well-formed) provides name and ingredients; an empty
running result falls back to the heading-anchored path and then to the
last-resort path. -/
def parse_recipe (parseJson : String → Option RecipeSchema) (url : String)
    (page : RecipePage) : String × List String :=
  let ingredients := structured_ingredients parseJson page
  let ingredients := if ingredients.isEmpty then heading_ingredients page else ingredients
  let ingredients := if ingredients.isEmpty then last_resort_ingredients page else ingredients
  (recipe_name_of parseJson url page, ingredients)

/-- C5: `parse_recipe` applies the extraction fallback chain in strict
order, stopping at the first path that yields a non-empty result
(embedded structured data, then the heading-anchored list path, then the
last-resort all-list-items path); and malformed embedded JSON is caught
locally and treated exactly like an absent structured-data block — the
parse result equals that of the same page without the script tag, so the
error never propagates to the caller. -/
theorem parse_recipe_chain (parseJson : String → Option RecipeSchema)
    (url : String) (page : RecipePage) :
    ((parse_recipe parseJson url page).2 =
      if (structured_ingredients parseJson page).isEmpty then
        (if (heading_ingredients page).isEmpty then last_resort_ingredients page
         else heading_ingredients page)
      else structured_ingredients parseJson page)
    ∧ (∀ s, page.schemaScript = some (some s) → parseJson s = none →
        parse_recipe parseJson url page =
          parse_recipe parseJson url
            { page with schemaScript := none }) := by
  constructor
  · show (let i := structured_ingredients parseJson page
      let i := if i.isEmpty then heading_ingredients page else i
      if i.isEmpty then last_resort_ingredients page else i) = _
    by_cases h1 : (structured_ingredients parseJson page).isEmpty <;> simp [h1]
  · intro s hs hpj
    have hstru : structured_ingredients parseJson page =
        structured_ingredients parseJson { page with schemaScript := none } := by
      unfold structured_ingredients
      rw [hs]
      simp only [hpj]
      by_cases hS : (s != "") = true <;> simp [hS]
    have hname : recipe_name_of parseJson url page =
        recipe_name_of parseJson url { page with schemaScript := none } := by
      unfold recipe_name_of
      rw [hs]
      simp only [hpj]
      by_cases hS : (s != "") = true <;> simp [hS]
    unfold parse_recipe
    rw [hstru, hname]
    rfl

/-- Witness for C5 at a concrete input: a page whose script tag holds
text that the JSON parser rejects parses identically to the same page
without the script tag. -/
theorem parse_recipe_chain_witness :
    parse_recipe (fun _ => none) "http://u"
      ⟨some " Receita ", some (some "notjson"), [], ["ovo"]⟩ =
    parse_recipe (fun _ => none) "http://u"
      ⟨some " Receita ", none, [], ["ovo"]⟩ :=
  (parse_recipe_chain (fun _ => none) "http://u"
    ⟨some " Receita ", some (some "notjson"), [], ["ovo"]⟩).2 "notjson" rfl rfl

/-! ## `build_menu` and `job` (meal_planner.py lines 150-245)

Network fetching (`requests.get` + DOM parsing, which may raise) is a
`fetch` parameter returning `Except`; `random.sample(urls, 7)` is a
`sample` parameter; the blog's extracted URL list is the `urls`
parameter (the result of `get_recipe_urls`).  Raised-and-uncaught Python
exceptions are `Except.error`. -/

/-- The `RuntimeError` message raised when fewer than 7 recipe URLs are
found (lines 161-164). -/
def insufficient_recipes_msg : String :=
  "Não foram encontradas receitas suficientes para montar o cardápio."

/-- `build_menu`: fail when fewer than 7 distinct recipe URLs exist;
otherwise sample 7, parse each (a failed fetch prints and skips the
recipe), concatenate the ingredient lists and dedupe them. -/
def build_menu (parseJson : String → Option RecipeSchema)
    (fetch : String → Except Unit RecipePage)
    (sample : List String → Nat → List String)
    (urls : List String) : Except String (List (String × String) × List String) :=
  if urls.length < 7 then Except.error insufficient_recipes_msg
  else
    let selected := sample urls 7
    let collected := selected.foldl
      (fun (acc : List (String × String) × List String) url =>
        match fetch url with
        | Except.error _ => acc
        | Except.ok page =>
          let parsed := parse_recipe parseJson url page
          (acc.1 ++ [(parsed.1, url)], acc.2 ++ parsed.2))
      ([], [])
    Except.ok (collected.1, dedupe_ingredients collected.2)

/-- The weekday names of `compose_email` (lines 188-196). -/
def dias_semana : List String :=
  ["Segunda-feira", "Terça-feira", "Quarta-feira", "Quinta-feira",
    "Sexta-feira", "Sábado", "Domingo"]

/-- The menu lines of `compose_email`: `f"{dia}: {nome} — {url}"` with
the weekday cycling through `dias_semana[idx % 7]`. -/
def menu_lines : List (String × String) → Nat → List String
  | [], _ => []
  | (nome, url) :: rest, idx =>
    ((dias_semana.getD (idx % dias_semana.length) "") ++ ": " ++ nome ++ " — " ++ url) ::
      menu_lines rest (idx + 1)

/-- `compose_email` (lines 186-205): greeting, menu lines, shopping-list
header and one line per ingredient, joined by newlines. -/
def compose_email (menu : List (String × String)) (ingredients : List String) : String :=
  String.intercalate "\n"
    ("Olá! Aqui está o cardápio semanal sugerido:\n" ::
      (menu_lines menu 0 ++ ["\nLista de compras:"] ++
        ingredients.map (fun item => "- " ++ item)))

/-- What a completed run of `job` produced: the composed e-mail body and
whether the send succeeded (`send_email` failures are caught and only
printed, lines 241-245). -/
structure JobOutcome where
  corpo : String
  sent : Bool
deriving DecidableEq, Repr

/-- `job` (lines 236-245): `build_menu` runs outside any try/except, so
its exception propagates; only `send_email` is guarded. -/
def job (parseJson : String → Option RecipeSchema)
    (fetch : String → Except Unit RecipePage)
    (sample : List String → Nat → List String)
    (urls : List String)
    (send : String → Except Unit Unit) : Except String JobOutcome :=
  match build_menu parseJson fetch sample urls with
  | Except.error e => Except.error e
  | Except.ok mi =>
    let corpo := compose_email mi.1 mi.2
    match send corpo with
    | Except.ok _ => Except.ok ⟨corpo, true⟩
    | Except.error _ => Except.ok ⟨corpo, false⟩

/-- C7: with fewer than 7 distinct recipe URLs, `build_menu` fails with
the insufficient-content `RuntimeError`, and that error propagates out
of `job` uncaught — `job` produces no outcome at all, so nothing is
composed and no (partial) digest is ever dispatched for that run. -/
theorem build_menu_insufficient (parseJson : String → Option RecipeSchema)
    (fetch : String → Except Unit RecipePage)
    (sample : List String → Nat → List String)
    (urls : List String) (send : String → Except Unit Unit)
    (hfew : urls.length < 7) :
    build_menu parseJson fetch sample urls = Except.error insufficient_recipes_msg
    ∧ job parseJson fetch sample urls send = Except.error insufficient_recipes_msg
    ∧ ∀ outcome, job parseJson fetch sample urls send ≠ Except.ok outcome := by
  have hb : build_menu parseJson fetch sample urls =
      Except.error insufficient_recipes_msg := by
    unfold build_menu
    rw [if_pos hfew]
  refine ⟨hb, ?_, ?_⟩
  · unfold job
    rw [hb]
  · intro outcome
    unfold job
    rw [hb]
    simp

/-- Witness for C7 at a concrete input: an empty URL list. -/
theorem build_menu_insufficient_witness :
    build_menu (fun _ => none) (fun _ => Except.error ()) (fun l _ => l) []
      = Except.error insufficient_recipes_msg
    ∧ job (fun _ => none) (fun _ => Except.error ()) (fun l _ => l) []
        (fun _ => Except.ok ())
      = Except.error insufficient_recipes_msg :=
  ⟨(build_menu_insufficient (fun _ => none) (fun _ => Except.error ()) (fun l _ => l)
      [] (fun _ => Except.ok ()) (by decide)).1,
   (build_menu_insufficient (fun _ => none) (fun _ => Except.error ()) (fun l _ => l)
      [] (fun _ => Except.ok ()) (by decide)).2.1⟩
